import Mathlib

/-!
Shallow embedding of the concurrency/pacing/statistics core of the Riva
C++ ASR clients (`riva/clients/asr/`), together with theorems checking the
natural-language specification against the code.

Conventions:
* wall-clock timestamps and latency samples (C++ `double` milliseconds)
  are modelled as rationals (`ℚ`);
* machine counters (`uint32_t`, `size_t`) are modelled as `Nat`; no value
  in these clients approaches 2^32, so wrap-around is not modelled;
* each C++ function is translated to a Lean function of the same name
  (camel-cased); loops over indices become `List.range`/`foldl`/recursion;
* the thread interleavings relevant to the claims are modelled as small
  labelled transition systems (one step per atomic source action).
-/

namespace Riva

/-! ### Latency recording state of `StreamingRecognizeClient`

Fields mirror the members of `StreamingRecognizeClient` touched by
`PostProcessResults` (`streaming_recognize_client.cc`):
`print_latency_stats_`, `latencies_`, `int_latencies_`, `final_latencies_`. -/

structure StatsState where
  printLatencyStats : Bool
  latencies : List ℚ
  intLatencies : List ℚ
  finalLatencies : List ℚ
  deriving DecidableEq

/-- `StreamingRecognizeClient::PostProcessResults`
(`streaming_recognize_client.cc:252-277`): if the receive-timestamp count is
neither the send count nor the send count + 1, clear the run-global
`print_latency_stats_` flag; otherwise push one sample
`recv_times[i] - send_times[i]` per send timestamp, bucketed by
`recv_final_flags[i]`, plus the unfiltered `latencies_` bucket.
The `print_transcripts_` branch at the end only prints and is omitted. -/
def postProcessResults (st : StatsState) (sendTimes recvTimes : List ℚ)
    (recvFinalFlags : List Bool) : StatsState :=
  if recvTimes.length ≠ sendTimes.length ∧ recvTimes.length ≠ sendTimes.length + 1 then
    { st with printLatencyStats := false }
  else
    let samples := (List.range sendTimes.length).map
      (fun i => (recvTimes.getD i 0 - sendTimes.getD i 0, recvFinalFlags.getD i false))
    { st with
      finalLatencies := st.finalLatencies ++ (samples.filter (fun s => s.2)).map Prod.fst
      intLatencies := st.intLatencies ++ (samples.filter (fun s => !s.2)).map Prod.fst
      latencies := st.latencies ++ samples.map Prod.fst }

/-- Zero-based nearest-rank percentile index used by `PrintLatencies` and
`PrintStats`: `floor(p * n / 100)` (the C++ computes it on `double`s; for
every feasible sample count the value is exactly `p * n / 100` in `Nat`). -/
def perIdx (p n : Nat) : Nat := p * n / 100

structure LatencyStats where
  median : ℚ
  lat90 : ℚ
  lat95 : ℚ
  lat99 : ℚ
  avg : ℚ
  deriving DecidableEq

/-- `StreamingRecognizeClient::PrintLatencies`
(`streaming_recognize_client.cc:390-414`): on a non-empty sample vector,
sort ascending, read the four nearest-rank percentiles and the mean;
on an empty vector do nothing (modelled as `none`). -/
def printLatencies (latencies : List ℚ) : Option LatencyStats :=
  if 0 < latencies.length then
    let sorted := latencies.mergeSort (fun a b => decide (a ≤ b))
    let n := latencies.length
    some { median := sorted.getD (perIdx 50 n) 0
           lat90 := sorted.getD (perIdx 90 n) 0
           lat95 := sorted.getD (perIdx 95 n) 0
           lat99 := sorted.getD (perIdx 99 n) 0
           avg := latencies.sum / (n : ℚ) }
  else none

/-! ### The unary client `main` (`riva_asr_client.cc:381-507`)

Exit-code skeleton of `main`, abstracting the run itself into its two
observable outcomes: the number of failed requests and whether the
latency/throughput statistics block was printed. -/

structure MainOutcome where
  exitCode : Nat
  statsPrinted : Bool
  deriving DecidableEq

/-- `main` of `riva_asr_client.cc`: returns 1 before any call is issued on
`argc < 2`, unparsed extra arguments, `max_alternatives < 1`, channel
creation failure, or an empty wav list; otherwise runs the calls and — with
`num_failed_requests` failures — prints stats exactly when that count is
zero, and in all run cases returns 0. -/
def rivaAsrMain (argc : Nat) (argcAfterParse : Nat) (maxAlternatives : Int)
    (channelOk : Bool) (numWav : Nat) (numFailedRequests : Nat) : MainOutcome :=
  if argc < 2 then ⟨1, false⟩
  else if 1 < argcAfterParse then ⟨1, false⟩
  else if maxAlternatives < 1 then ⟨1, false⟩
  else if !channelOk then ⟨1, false⟩
  else if numWav = 0 then ⟨1, false⟩
  else if numFailedRequests ≠ 0 then ⟨0, false⟩
  else ⟨0, true⟩

/-! ### Admission loop of the streaming client

`DoStreamingFromFile` (`streaming_recognize_client.cc:219-232`) runs a
single-threaded admission loop `while (NumActiveStreams() < L && i < N)
StartNewStream(...)`. `StartNewStream` increments `num_active_streams_` and
`num_streams_started_`; the writer task `GenerateRequests` decrements
`num_active_streams_` when it finishes; the reader task `ReceiveResponses`
increments `num_streams_finished_` when it finishes. The three counters
form the state; each atomic source action is one step. -/

structure StreamRunState where
  numActiveStreams : Nat
  numStreamsStarted : Nat
  numStreamsFinished : Nat
  deriving DecidableEq

/-- One atomic action of the streaming run with concurrency limit `L` and
`N` queued payloads: admission (guarded by `NumActiveStreams() < L` and
payloads remaining), a writer task finishing (decrement of
`num_active_streams_`), or a reader task finishing (increment of
`num_streams_finished_`). -/
inductive StreamStep (L N : Nat) : StreamRunState → StreamRunState → Prop
  | start (s : StreamRunState) (hL : s.numActiveStreams < L) (hN : s.numStreamsStarted < N) :
      StreamStep L N s { s with numActiveStreams := s.numActiveStreams + 1,
                                numStreamsStarted := s.numStreamsStarted + 1 }
  | writerDone (s : StreamRunState) (h : 0 < s.numActiveStreams) :
      StreamStep L N s { s with numActiveStreams := s.numActiveStreams - 1 }
  | readerDone (s : StreamRunState) (h : s.numStreamsFinished < s.numStreamsStarted) :
      StreamStep L N s { s with numStreamsFinished := s.numStreamsFinished + 1 }

/-- States reachable from the all-zero initial state of
`StreamingRecognizeClient` (constructor zero-initializes the counters). -/
inductive StreamReachable (L N : Nat) : StreamRunState → Prop
  | init : StreamReachable L N ⟨0, 0, 0⟩
  | step {s t : StreamRunState} :
      StreamReachable L N s → StreamStep L N s t → StreamReachable L N t

/-! ### Completion-drain loop of the unary client

`RecognizeClient::AsyncCompleteRpc` (`riva_asr_client.cc:270-320`)
processes one completion-queue event per iteration, increments
`num_responses_`, and sets `stop_flag` exactly when
`num_responses_ == num_requests_ && done_sending_` at the check following
the event. The values of `num_requests_` and `done_sending_` observed at
each check are external inputs (the dispatch thread mutates them); the
trace lists, per completion event, the pair observed at that event's
check. `none` means the loop is still blocked on `cq_.Next` after
consuming the whole trace; `some r` means it stopped with `r` responses. -/
def drainLoop (numResponses : Nat) : List (Nat × Bool) → Option Nat
  | [] => none
  | (numRequests, doneSending) :: rest =>
    if numResponses + 1 = numRequests ∧ doneSending = true then some (numResponses + 1)
    else drainLoop (numResponses + 1) rest

/-! ### Slot release vs. terminal response, per call

Streaming call (`StartNewStream` enqueues `GenerateRequests` and
`ReceiveResponses` on the pool): the writer performs its writes and then —
at the end of `GenerateRequests`, `streaming_recognize_client.cc:193` —
decrements `num_active_streams_` (the count gating admission); the reader
consumes response frames and then observes the terminal status via
`streamer->Finish()`. The two tasks interleave freely. -/

structure SCallState where
  writesRemaining : Nat
  activeDecremented : Bool
  pendingReads : Nat
  terminalObserved : Bool
  deriving DecidableEq

/-- Atomic actions of one streaming call's writer/reader pair:
`write` (one chunk written), `writerDone` (the decrement of
`num_active_streams_` at the end of `GenerateRequests`, after the last
write), `read` (one response frame consumed), `finish` (the terminal
status observed by `streamer->Finish()`, after the stream is drained). -/
inductive SCallStep : SCallState → SCallState → Prop
  | write (s : SCallState) (h : 0 < s.writesRemaining) :
      SCallStep s { s with writesRemaining := s.writesRemaining - 1 }
  | writerDone (s : SCallState) (h1 : s.writesRemaining = 0)
      (h2 : s.activeDecremented = false) :
      SCallStep s { s with activeDecremented := true }
  | read (s : SCallState) (h : 0 < s.pendingReads) :
      SCallStep s { s with pendingReads := s.pendingReads - 1 }
  | finish (s : SCallState) (h1 : s.writesRemaining = 0) (h2 : s.pendingReads = 0)
      (h3 : s.terminalObserved = false) :
      SCallStep s { s with terminalObserved := true }

inductive SCallReachable (init : SCallState) : SCallState → Prop
  | refl : SCallReachable init init
  | step {s t : SCallState} :
      SCallReachable init s → SCallStep s t → SCallReachable init t

/-- Unary call progress inside one `AsyncCompleteRpc` iteration
(`riva_asr_client.cc:277-318`): the completion event is pulled, the call's
terminal status is examined (`call->status.ok()` branch), and only then is
its correlation id erased from `curr_tasks_`. -/
inductive UPhase
  | waiting
  | statusObserved
  | slotReleased
  deriving DecidableEq

/-- Straight-line order of the per-call actions in an `AsyncCompleteRpc`
iteration: observe the terminal status, then release the slot. -/
inductive UStep : UPhase → UPhase → Prop
  | observe : UStep .waiting .statusObserved
  | release : UStep .statusObserved .slotReleased

/-! ### Response aggregation (`ClientCall::AppendResult`, `ReceiveResponses`)

Shapes mirror `nr_asr::StreamingRecognitionResult` as consumed by the
client, and the `Results` struct of `client_call.h`. -/

structure WordInfo where
  word : String
  startTime : Nat
  endTime : Nat
  deriving DecidableEq

structure SpeechRecognitionAlternative where
  transcript : String
  confidence : ℚ
  words : List WordInfo
  deriving DecidableEq

def defaultAlternative : SpeechRecognitionAlternative := ⟨"", 0, []⟩

structure StreamingRecognitionResult where
  isFinal : Bool
  alternatives : List SpeechRecognitionAlternative
  audioProcessed : ℚ
  deriving DecidableEq

/-- The `Results` struct (`client_call.h`), the per-call accumulated state
`latest_result_`. -/
structure Results where
  finalTranscripts : List String
  finalScores : List ℚ
  finalTimeStamps : List WordInfo
  partialTranscript : String
  partialTimeStamps : List WordInfo
  audioProcessed : ℚ
  deriving DecidableEq

def emptyResults : Results := ⟨[], [], [], "", [], 0⟩

/-- `std::vector::resize(n)` with default element `d`: truncate to `n` or
pad with `d` up to `n`. -/
def vecResize (l : List α) (n : Nat) (d : α) : List α :=
  l.take n ++ List.replicate (n - l.length) d

/-- `ClientCall::AppendResult` (`client_call.cc:16-51`). If the
accumulated transcript vector is empty it is first resized to `[""]`.
A final fragment resizes `final_transcripts`/`final_scores` to the
fragment's alternative count and appends each alternative's
transcript/confidence at its rank (`final_transcripts[a] += ...`), and —
with word time offsets on and at least one alternative — appends
alternative 0's words to `final_time_stamps`. A non-final fragment with at
least one alternative appends alternative 0's transcript to
`partial_transcript` and, with offsets on, its words to
`partial_time_stamps`. -/
def appendResult (wordTimeOffsets : Bool) (r : Results)
    (result : StreamingRecognitionResult) : Results :=
  let r := if r.finalTranscripts.length < 1 then { r with finalTranscripts := [""] } else r
  if result.isFinal then
    let n := result.alternatives.length
    let r := { r with
      finalTranscripts := List.zipWith (fun t alt => t ++ alt.transcript)
        (vecResize r.finalTranscripts n "") result.alternatives
      finalScores := List.zipWith (fun sc alt => sc + alt.confidence)
        (vecResize r.finalScores n 0) result.alternatives }
    if wordTimeOffsets ∧ 0 < n then
      { r with finalTimeStamps :=
          r.finalTimeStamps ++ (result.alternatives.getD 0 defaultAlternative).words }
    else r
  else
    if 0 < result.alternatives.length then
      let r := { r with partialTranscript :=
          r.partialTranscript ++ (result.alternatives.getD 0 defaultAlternative).transcript }
      if wordTimeOffsets then
        { r with partialTimeStamps :=
            r.partialTimeStamps ++ (result.alternatives.getD 0 defaultAlternative).words }
      else r
    else r

/-- One iteration of the `for (r < results_size)` loop in
`StreamingRecognizeClient::ReceiveResponses`
(`streaming_recognize_client.cc:296-313`): record the fragment's
`audio_processed`, call `AppendResult` when transcripts are printed, and
or the fragment's `is_final` flag into the frame's flag. -/
def receiveStep (wordTimeOffsets printTranscripts : Bool)
    (acc : Results × Bool) (result : StreamingRecognitionResult) : Results × Bool :=
  let st := { acc.1 with audioProcessed := result.audioProcessed }
  let st := if printTranscripts then appendResult wordTimeOffsets st result else st
  (st, acc.2 || result.isFinal)

/-- The body of the `streamer->Read` loop in
`StreamingRecognizeClient::ReceiveResponses`
(`streaming_recognize_client.cc:288-322`) for one response frame: reset
the partial transcript and partial timestamps, then fold the frame's
fragments with `receiveStep`; the returned `Bool` is the frame's
`recv_final_flags` entry. -/
def processFrame (wordTimeOffsets printTranscripts : Bool) (r : Results)
    (frame : List StreamingRecognitionResult) : Results × Bool :=
  frame.foldl (receiveStep wordTimeOffsets printTranscripts)
    ({ r with partialTranscript := "", partialTimeStamps := [] }, false)

/-- Modelled from the spec: one fragment's contribution to the frame's
partial text — its first alternative's transcript when the fragment is
non-final and carries at least one alternative, nothing otherwise. -/
def partialStep (acc : String) (result : StreamingRecognitionResult) : String :=
  if result.isFinal = false ∧ 0 < result.alternatives.length then
    acc ++ (result.alternatives.getD 0 defaultAlternative).transcript
  else acc

/-- Modelled from the spec: the partial text the Response Aggregator
(section 4.4) derives from one frame in isolation — the concatenation, in
order, of the first-alternative transcripts of the frame's non-final
fragments that carry at least one alternative. -/
def partialConcat (frame : List StreamingRecognitionResult) : String :=
  frame.foldl partialStep ""

/-! ### Streaming write loop (`StreamingRecognizeClient::GenerateRequests`)

`streaming_recognize_client.cc:111-194`, the chunking skeleton of the
write loop. Per iteration: `bytes_to_send = min(data.size() - offset,
chunk_size + header_size)` where `header_size = sizeof(FixedWAVHeader)`
on the first iteration (`offset == 0`) and `0` afterwards; the chunk is
written, `offset += bytes_to_send`, and when `offset == data.size()` the
writer calls `WritesDone()` once and leaves the loop. The first parameter
is fuel (the C++ loop does not terminate when the chunk size is zero);
the returned list holds the audio payload size of each written chunk
(`bytes_to_send - header_size`). -/
def genRequests (dataSize chunkSize headerSize : Nat) :
    Nat → Nat → Option (List Nat)
  | 0, _ => none
  | fuel + 1, offset =>
    let header := if offset = 0 then headerSize else 0
    let bytesToSend := min (dataSize - offset) (chunkSize + header)
    let audioBytes := bytesToSend - header
    if offset + bytesToSend = dataSize then some [audioBytes]
    else (genRequests dataSize chunkSize headerSize fuel (offset + bytesToSend)).map
      (audioBytes :: ·)

/-- Modelled from the spec: the `PacingSchedule` of section 3 — "an ordered
sequence of (chunk_bytes, nominal_duration_ms) pairs derived by slicing the
payload at a fixed chunk duration; last chunk may be shorter" — with
`ceil(T/d)` chunks, the `i`-th covering `min (T - i*d) d` bytes of audio
(`T`, `d` in bytes; nominal duration is proportional to bytes at a fixed
sample rate). Used to compare the write loop against the spec's words. -/
def pacingSchedule (d T : Nat) : List Nat :=
  (List.range ((T + d - 1) / d)).map (fun i => min (T - i * d) d)

/-! ## Theorems -/

/-- C1: on a completed call, if the receive-timestamp count equals the
send count `S` or `S + 1`, `PostProcessResults` appends exactly one
latency sample `recvTimes[i] - sendTimes[i]` per send timestamp to the
run's `latencies_` and leaves `print_latency_stats_` unchanged; for any
other length relation it only clears the run-global
`print_latency_stats_` flag (recording nothing); and no call can ever set
the flag back to `true`. -/
theorem postProcessResults_latency_policy (st : StatsState) (send recv : List ℚ)
    (flags : List Bool) :
    ((recv.length = send.length ∨ recv.length = send.length + 1) →
      (postProcessResults st send recv flags).latencies =
        st.latencies ++ (List.range send.length).map
          (fun i => recv.getD i 0 - send.getD i 0) ∧
      (postProcessResults st send recv flags).printLatencyStats = st.printLatencyStats) ∧
    (recv.length ≠ send.length ∧ recv.length ≠ send.length + 1 →
      postProcessResults st send recv flags = { st with printLatencyStats := false }) ∧
    ((postProcessResults st send recv flags).printLatencyStats = true →
      st.printLatencyStats = true) := by
  by_cases h : recv.length ≠ send.length ∧ recv.length ≠ send.length + 1
  · refine ⟨fun hc => absurd hc (by tauto), fun _ => by simp [postProcessResults, h],
      fun hc => by simp [postProcessResults, h] at hc⟩
  · refine ⟨fun _ => ⟨?_, ?_⟩, fun hc => absurd hc h, ?_⟩
    · simp only [postProcessResults, if_neg h, List.map_map]
      rfl
    · simp [postProcessResults, if_neg h]
    · simp [postProcessResults, if_neg h]

/-- Witness for C1 at `S = 2`, `R = 2`. -/
theorem postProcessResults_latency_policy_witness :
    (postProcessResults ⟨true, [], [], []⟩ [1, 2] [3, 5] [true, false]).latencies = [2, 3] ∧
    (postProcessResults ⟨true, [], [], []⟩ [1, 2] [3, 5] [true, false]).printLatencyStats
      = true := by
  have h := (postProcessResults_latency_policy ⟨true, [], [], []⟩ [1, 2] [3, 5]
    [true, false]).1 (Or.inl rfl)
  refine ⟨?_, h.2⟩
  rw [h.1]
  simp [List.range_succ, List.getD]
  norm_num

/-- C2: in the streaming admission loop, a payload is admitted only when
`NumActiveStreams()` is strictly below the concurrency limit `L` and each
admission increments the count by exactly one; consequently
`NumActiveStreams()` never exceeds `L` in any reachable state of the run. -/
theorem numActiveStreams_bounded (L N : Nat) (hL : 1 ≤ L) :
    (∀ s, StreamReachable L N s → s.numActiveStreams ≤ L) ∧
    (∀ s t, StreamStep L N s t → t.numStreamsStarted = s.numStreamsStarted + 1 →
      s.numActiveStreams < L ∧ t.numActiveStreams = s.numActiveStreams + 1) := by
  constructor
  · intro s h
    induction h with
    | init => exact Nat.zero_le L
    | step hr hs ih =>
      cases hs with
      | start hL' hN => exact hL'
      | writerDone h => exact le_trans (Nat.sub_le _ _) ih
      | readerDone h => exact ih
  · intro s t hst hstarted
    cases hst with
    | start hL' hN => exact ⟨hL', rfl⟩
    | writerDone h => exact absurd hstarted (by simp)
    | readerDone h => exact absurd hstarted (by simp)

/-- Witness for C2 at `L = 1`, `N = 1`, after one admission. -/
theorem numActiveStreams_bounded_witness :
    (StreamRunState.mk 1 1 0).numActiveStreams ≤ 1 := by
  have h := (numActiveStreams_bounded 1 1 (by decide)).1
  exact h _ (.step .init (.start ⟨0, 0, 0⟩ (by decide) (by decide)))

theorem drainLoop_lt_of_some : ∀ (tr : List (Nat × Bool)) (resp r : Nat),
    drainLoop resp tr = some r → resp < r := by
  intro tr
  induction tr with
  | nil => intro resp r h; simp [drainLoop] at h
  | cons p rest ih =>
    intro resp r h
    obtain ⟨nr, ds⟩ := p
    by_cases hc : resp + 1 = nr ∧ ds = true
    · simp [drainLoop, hc] at h
      omega
    · rw [drainLoop, if_neg hc] at h
      exact Nat.lt_of_succ_lt (ih (resp + 1) r h)

theorem drainLoop_some_iff : ∀ (tr : List (Nat × Bool)) (resp k : Nat),
    drainLoop resp tr = some (resp + k + 1) ↔
      (tr[k]? = some (resp + k + 1, true) ∧
       ∀ j < k, tr[j]? ≠ some (resp + j + 1, true)) := by
  intro tr
  induction tr with
  | nil =>
    intro resp k
    simp [drainLoop]
  | cons p rest ih =>
    intro resp k
    obtain ⟨nr, ds⟩ := p
    have hunf : drainLoop resp ((nr, ds) :: rest) =
        if resp + 1 = nr ∧ ds = true then some (resp + 1)
        else drainLoop (resp + 1) rest := rfl
    by_cases hc : resp + 1 = nr ∧ ds = true
    · rw [hunf, if_pos hc]
      obtain ⟨hnr, hds⟩ := hc
      cases k with
      | zero =>
        simp only [List.getElem?_cons_zero]
        constructor
        · intro h
          exact ⟨by rw [← hnr, ← hds], fun j hj => absurd hj (Nat.not_lt_zero j)⟩
        · intro _
          simp
      | succ k' =>
        constructor
        · intro h
          simp only [Option.some.injEq] at h
          omega
        · rintro ⟨_, hall⟩
          exact absurd (hall 0 (Nat.succ_pos k')) (by simp [← hnr, ← hds])
    · rw [hunf, if_neg hc]
      cases k with
      | zero =>
        constructor
        · intro h
          have := drainLoop_lt_of_some rest (resp + 1) (resp + 0 + 1) h
          omega
        · rintro ⟨h0, _⟩
          simp only [List.getElem?_cons_zero, Option.some.injEq, Prod.mk.injEq] at h0
          exact absurd ⟨by omega, h0.2⟩ hc
      | succ k' =>
        have heq : resp + (k' + 1) + 1 = (resp + 1) + k' + 1 := by omega
        rw [heq, ih (resp + 1) k']
        constructor
        · rintro ⟨h1, h2⟩
          refine ⟨by simpa using h1, ?_⟩
          intro j hj
          cases j with
          | zero =>
            simp only [List.getElem?_cons_zero, Ne, Option.some.injEq, Prod.mk.injEq]
            rintro ⟨ha, hb⟩
            exact hc ⟨by omega, hb⟩
          | succ j' =>
            simp only [List.getElem?_cons_succ]
            have := h2 j' (by omega)
            have harith : resp + 1 + j' + 1 = resp + (j' + 1) + 1 := by omega
            rw [harith] at this
            exact this
        · rintro ⟨h1, h2⟩
          refine ⟨by simpa using h1, ?_⟩
          intro j' hj'
          have := h2 (j' + 1) (by omega)
          simp only [List.getElem?_cons_succ] at this
          have harith : resp + (j' + 1) + 1 = resp + 1 + j' + 1 := by omega
          rw [harith] at this
          exact this

/-- C3: the unary completion-drain loop `AsyncCompleteRpc` stops with
`k + 1` responses consumed exactly when, at the check following the
`k`-th completion event, the completed count equals the dispatched count
(`num_responses_ == num_requests_`) and `done_sending_` is set, and the
dual condition failed at the check after every earlier event — i.e., the
loop never stops pulling completions while either condition is false. -/
theorem drainLoop_terminates_iff (events : List (Nat × Bool)) (k : Nat) :
    drainLoop 0 events = some (k + 1) ↔
      (events[k]? = some (k + 1, true) ∧
       ∀ j < k, events[j]? ≠ some (j + 1, true)) := by
  have h := drainLoop_some_iff events 0 k
  simpa using h

/-- Witness for C3: a two-event trace where the dual condition fails at
the first event (still sending) and holds at the second. -/
theorem drainLoop_terminates_iff_witness :
    drainLoop 0 [(2, false), (2, true)] = some 2 := by
  refine (drainLoop_terminates_iff [(2, false), (2, true)] 1).mpr ⟨rfl, ?_⟩
  intro j hj
  interval_cases j
  simp

/-- C4 counterexample: in the streaming client, a call with one audio
chunk and one still-pending response frame reaches — by running the
writer task to completion first — a state in which the in-flight count
gating admission (`num_active_streams_`) has already been released while
the terminal response has not been observed and a response can still
arrive. -/
theorem slotRelease_before_terminal_cex :
    SCallReachable ⟨1, false, 1, false⟩ ⟨0, true, 1, false⟩ ∧
    (⟨0, true, 1, false⟩ : SCallState).activeDecremented = true ∧
    (⟨0, true, 1, false⟩ : SCallState).terminalObserved = false ∧
    0 < (⟨0, true, 1, false⟩ : SCallState).pendingReads := by
  refine ⟨?_, rfl, rfl, Nat.one_pos⟩
  have h1 : SCallStep ⟨1, false, 1, false⟩ ⟨0, false, 1, false⟩ :=
    SCallStep.write ⟨1, false, 1, false⟩ Nat.one_pos
  have h2 : SCallStep ⟨0, false, 1, false⟩ ⟨0, true, 1, false⟩ :=
    SCallStep.writerDone ⟨0, false, 1, false⟩ rfl rfl
  exact .step (.step .refl h1) h2

/-- C4 amended: in the streaming client the in-flight count is released
by the writer task at the end of `GenerateRequests` — always after the
whole payload has been written, but possibly before the call's terminal
response is observed; in the unary client the correlation id is erased
from `curr_tasks_` only after the call's terminal status has been
examined in the same `AsyncCompleteRpc` iteration. -/
theorem slotRelease_policy :
    (∀ init s, SCallReachable init s → init.activeDecremented = false →
      s.activeDecremented = true → s.writesRemaining = 0) ∧
    (∀ p q, UStep p q → q = UPhase.slotReleased → p = UPhase.statusObserved) := by
  constructor
  · intro init s h
    induction h with
    | refl =>
      intro h1 h2
      rw [h1] at h2
      exact absurd h2 (by simp)
    | step hr hs ih =>
      intro h1 h2
      cases hs with
      | write hw =>
        have := ih h1 h2
        omega
      | writerDone hw ha => exact hw
      | read hp => exact ih h1 h2
      | finish hw hp ht => exact ih h1 h2
  · intro p q h hq
    cases h with
    | observe => exact absurd hq (by simp)
    | release => rfl

/-- Witness for C4 amended: a writer that finishes its (empty) schedule
and releases the slot indeed has no writes remaining, and the unary
release step is preceded by the status observation. -/
theorem slotRelease_policy_witness :
    (SCallState.mk 0 true 0 false).writesRemaining = 0 ∧
    UPhase.statusObserved = UPhase.statusObserved := by
  refine ⟨?_, slotRelease_policy.2 UPhase.statusObserved UPhase.slotReleased .release rfl⟩
  exact slotRelease_policy.1 ⟨0, false, 0, false⟩ ⟨0, true, 0, false⟩
    (.step .refl (.writerDone ⟨0, false, 0, false⟩ rfl rfl)) rfl rfl

theorem appendResult_partialTranscript (wto : Bool) (r : Results)
    (res : StreamingRecognitionResult) :
    (appendResult wto r res).partialTranscript = partialStep r.partialTranscript res := by
  unfold appendResult partialStep
  split_ifs <;> try rfl
  all_goals try simp_all
  all_goals split <;> rfl

theorem receiveStep_partialTranscript (wto pt : Bool) (acc : Results × Bool)
    (res : StreamingRecognitionResult) :
    (receiveStep wto pt acc res).1.partialTranscript =
      if pt = true then partialStep acc.1.partialTranscript res
      else acc.1.partialTranscript := by
  unfold receiveStep
  by_cases hp : pt = true
  · simp only [hp, if_true]
    exact appendResult_partialTranscript wto _ res
  · simp [hp]

theorem partialStep_shift (res : StreamingRecognitionResult) (s : String) :
    partialStep s res = s ++ partialStep "" res := by
  unfold partialStep
  split_ifs with h
  · rw [String.empty_append]
  · rw [String.append_empty]

theorem foldl_partialStep_shift :
    ∀ (frame : List StreamingRecognitionResult) (s : String),
      frame.foldl partialStep s = s ++ partialConcat frame := by
  intro frame
  induction frame with
  | nil => intro s; simp [partialConcat, String.append_empty]
  | cons res rest ih =>
    intro s
    have hcc : partialConcat (res :: rest) = partialStep "" res ++ partialConcat rest := by
      show List.foldl partialStep (partialStep "" res) rest = _
      rw [ih]
    simp only [List.foldl_cons]
    rw [ih, hcc, partialStep_shift, String.append_assoc]

theorem foldl_receiveStep_partialTranscript (wto pt : Bool) :
    ∀ (frame : List StreamingRecognitionResult) (acc : Results × Bool),
      (frame.foldl (receiveStep wto pt) acc).1.partialTranscript =
        if pt = true then acc.1.partialTranscript ++ partialConcat frame
        else acc.1.partialTranscript := by
  intro frame
  induction frame with
  | nil =>
    intro acc
    split_ifs <;> simp [partialConcat, String.append_empty]
  | cons res rest ih =>
    intro acc
    have hcc : partialConcat (res :: rest) = partialStep "" res ++ partialConcat rest := by
      show List.foldl partialStep (partialStep "" res) rest = _
      rw [foldl_partialStep_shift]
    cases pt with
    | false =>
      simp only [List.foldl_cons]
      rw [ih (receiveStep wto false acc res), receiveStep_partialTranscript]
      simp
    | true =>
      simp only [List.foldl_cons]
      rw [ih (receiveStep wto true acc res), receiveStep_partialTranscript]
      rw [partialStep_shift, hcc]
      simp [String.append_assoc]

/-- C5 counterexample: one response frame carrying two non-final
fragments, with first-alternative transcripts `"a"` then `"b"`, leaves
the call's partial transcript at `"ab"` — the second fragment is appended
to, not a replacement of, the partial state built from the first. -/
theorem partialReplacement_cex :
    (processFrame true true emptyResults
      [⟨false, [⟨"a", 0, []⟩], 0⟩, ⟨false, [⟨"b", 0, []⟩], 0⟩]).1.partialTranscript = "ab" ∧
    ("ab" : String) ≠ "b" := by
  constructor
  · rfl
  · decide

/-- C5 amended: the call's partial transcript is reset on every response
frame and rebuilt from that frame alone — each of the frame's non-final
fragments appending (not replacing) its first alternative's transcript —
so the partial state never depends on earlier frames: it equals the
frame-local concatenation, and after two successive frames it equals
what the second frame alone produces. -/
theorem partialTranscript_frame_local :
    (∀ (wto pt : Bool) (r : Results) (frame : List StreamingRecognitionResult),
      (processFrame wto pt r frame).1.partialTranscript =
        if pt = true then partialConcat frame else "") ∧
    (∀ (wto pt : Bool) (r : Results)
        (frame1 frame2 : List StreamingRecognitionResult),
      (processFrame wto pt (processFrame wto pt r frame1).1 frame2).1.partialTranscript =
        (processFrame wto pt r frame2).1.partialTranscript) := by
  have key : ∀ (wto pt : Bool) (r : Results) (frame : List StreamingRecognitionResult),
      (processFrame wto pt r frame).1.partialTranscript =
        if pt = true then partialConcat frame else "" := by
    intro wto pt r frame
    unfold processFrame
    rw [foldl_receiveStep_partialTranscript]
    split_ifs with hp
    · show ("" : String) ++ partialConcat frame = partialConcat frame
      rw [String.empty_append]
    · rfl
  exact ⟨key, fun wto pt r f1 f2 => by rw [key, key]⟩

theorem vecResize_length (l : List α) (n : Nat) (d : α) : (vecResize l n d).length = n := by
  simp [vecResize]
  omega

theorem vecResize_getElem (l : List α) (n : Nat) (d : α) (a : Nat) (h1 : a < l.length)
    (h2 : a < n) (h : a < (vecResize l n d).length) : (vecResize l n d)[a] = l[a] := by
  unfold vecResize
  rw [List.getElem_append_left (by simp; omega)]
  exact List.getElem_take l

theorem appendResult_finalTranscripts (wto : Bool) (r : Results)
    (res : StreamingRecognitionResult) (hf : res.isFinal = true) :
    (appendResult wto r res).finalTranscripts =
      List.zipWith (fun t alt => t ++ alt.transcript)
        (vecResize (if r.finalTranscripts.length < 1 then [""] else r.finalTranscripts)
          res.alternatives.length "")
        res.alternatives := by
  unfold appendResult
  split_ifs <;> try simp_all
  all_goals split <;> rfl

/-- C6 counterexample: after a final fragment with two alternatives
`"x"`, `"y"` and then a final fragment with a single alternative `"z"`,
the accumulated alternative at rank 1 (`"y"`) is discarded — the
`resize(num_alternatives)` in `AppendResult` truncates the accumulated
vector, so final alternative text is not always monotonically appended. -/
theorem finalTranscripts_truncation_cex :
    (appendResult false emptyResults
        ⟨true, [⟨"x", 0, []⟩, ⟨"y", 0, []⟩], 0⟩).finalTranscripts = ["x", "y"] ∧
    (appendResult false (appendResult false emptyResults
          ⟨true, [⟨"x", 0, []⟩, ⟨"y", 0, []⟩], 0⟩)
        ⟨true, [⟨"z", 0, []⟩], 0⟩).finalTranscripts = ["xz"] ∧
    (appendResult false emptyResults
        ⟨true, [⟨"x", 0, []⟩, ⟨"y", 0, []⟩], 0⟩).finalTranscripts[1]? = some "y" ∧
    (appendResult false (appendResult false emptyResults
          ⟨true, [⟨"x", 0, []⟩, ⟨"y", 0, []⟩], 0⟩)
        ⟨true, [⟨"z", 0, []⟩], 0⟩).finalTranscripts[1]? = none := by
  refine ⟨rfl, rfl, rfl, rfl⟩

/-- C6 amended: whenever a final fragment carries at least as many
alternatives as are accumulated (and at least one), `AppendResult` keeps
every accumulated alternative — the new vector has exactly the
fragment's alternative count, is no shorter than before, and at every
previously existing rank the old accumulated text is a prefix of
(extended by that alternative's transcript into) the new text. When a
final fragment carries fewer alternatives than are accumulated, the
excess ranks are discarded (see the counterexample). -/
theorem finalTranscripts_monotone (wto : Bool) (r : Results)
    (res : StreamingRecognitionResult) (hf : res.isFinal = true)
    (hn : max 1 r.finalTranscripts.length ≤ res.alternatives.length) :
    (appendResult wto r res).finalTranscripts.length = res.alternatives.length ∧
    r.finalTranscripts.length ≤ (appendResult wto r res).finalTranscripts.length ∧
    ∀ a, a < r.finalTranscripts.length →
      ∃ t, (appendResult wto r res).finalTranscripts.getD a "" =
        r.finalTranscripts.getD a "" ++ t := by
  rw [appendResult_finalTranscripts wto r res hf]
  have hlen : (List.zipWith (fun t alt => t ++ alt.transcript)
      (vecResize (if r.finalTranscripts.length < 1 then [""] else r.finalTranscripts)
        res.alternatives.length "")
      res.alternatives).length = res.alternatives.length := by
    rw [List.length_zipWith, vecResize_length]
    simp
  refine ⟨hlen, by omega, ?_⟩
  intro a ha
  have hr1 : ¬ r.finalTranscripts.length < 1 := by omega
  have han : a < res.alternatives.length := by omega
  simp only [if_neg hr1]
  refine ⟨(res.alternatives.get ⟨a, han⟩).transcript, ?_⟩
  rw [List.getD_eq_getElem?_getD, List.getElem?_eq_getElem (by
    rw [List.length_zipWith, vecResize_length]
    simp
    omega), Option.getD_some, List.getElem_zipWith]
  rw [List.getD_eq_getElem?_getD, List.getElem?_eq_getElem ha, Option.getD_some]
  congr 1
  exact vecResize_getElem r.finalTranscripts res.alternatives.length "" a ha han _

/-- Witness for C6 amended: appending a one-alternative final fragment to
the empty accumulator. -/
theorem finalTranscripts_monotone_witness :
    (appendResult false emptyResults
      ⟨true, [⟨"z", 0, []⟩], 0⟩).finalTranscripts.length = 1 := by
  exact (finalTranscripts_monotone false emptyResults ⟨true, [⟨"z", 0, []⟩], 0⟩ rfl
    (by simp [emptyResults])).1

/-- C7: `PrintLatencies` computes its percentiles on the ascending sort
of the samples (nearest-rank indices `floor(p * n / 100)`) and the mean
as the sum divided by the count, so its result is invariant under any
permutation of the input sample vector. -/
theorem printLatencies_perm_invariant (l l' : List ℚ) (h : l.Perm l') :
    printLatencies l = printLatencies l' := by
  have hsort : l.mergeSort (fun a b => decide (a ≤ b)) =
      l'.mergeSort (fun a b => decide (a ≤ b)) :=
    List.eq_of_perm_of_sorted
      ((List.mergeSort_perm l _).trans (h.trans (List.mergeSort_perm l' _).symm))
      (List.sorted_mergeSort' l) (List.sorted_mergeSort' l')
  unfold printLatencies
  rw [h.length_eq, hsort, h.sum_eq]

/-- Witness for C7: the three-sample vector `[3, 1, 2]` and a shuffle of
it give identical statistics. -/
theorem printLatencies_perm_invariant_witness :
    printLatencies [3, 1, 2] = printLatencies [2, 3, 1] :=
  printLatencies_perm_invariant [3, 1, 2] [2, 3, 1] (by decide)

/-- C10: `PrintLatencies` is total and in-bounds — on the empty sample
vector it performs no access and produces nothing, and on a non-empty
vector of length `n` each computed nearest-rank index
(`floor(50n/100)`, `floor(90n/100)`, `floor(95n/100)`, `floor(99n/100)`)
is strictly below `n`, which is also the length of the sorted vector the
accesses are made into. -/
theorem printLatencies_in_bounds :
    printLatencies [] = none ∧
    ∀ (l : List ℚ), l ≠ [] →
      (l.mergeSort (fun a b => decide (a ≤ b))).length = l.length ∧
      perIdx 50 l.length < l.length ∧ perIdx 90 l.length < l.length ∧
      perIdx 95 l.length < l.length ∧ perIdx 99 l.length < l.length := by
  refine ⟨rfl, ?_⟩
  intro l hl
  have hn : 0 < l.length := List.length_pos.mpr hl
  refine ⟨(List.mergeSort_perm l _).length_eq, ?_, ?_, ?_, ?_⟩ <;>
    · unfold perIdx
      rw [Nat.div_lt_iff_lt_mul (by norm_num)]
      omega

/-- Witness for C10 on a singleton sample vector. -/
theorem printLatencies_in_bounds_witness :
    perIdx 50 1 < 1 ∧ perIdx 90 1 < 1 ∧ perIdx 95 1 < 1 ∧ perIdx 99 1 < 1 := by
  have h := (printLatencies_in_bounds.2 [(5 : ℚ)] (by decide)).2
  simpa using h

theorem pacingSchedule_of_le (d T : Nat) (h1 : 0 < T) (h2 : T ≤ d) :
    pacingSchedule d T = [T] := by
  unfold pacingSchedule
  have hceil : (T + d - 1) / d = 1 := by
    apply Nat.div_eq_of_lt_le <;> omega
  have h01 : List.range 1 = [0] := rfl
  rw [hceil, h01, List.map_cons, List.map_nil]
  have hmin : min (T - 0 * d) d = T := by
    simp only [Nat.zero_mul, Nat.sub_zero]
    omega
  rw [hmin]

theorem pacingSchedule_cons (d T : Nat) (hd : 0 < d) (h : d < T) :
    pacingSchedule d T = d :: pacingSchedule d (T - d) := by
  unfold pacingSchedule
  have hceil : (T + d - 1) / d = (T - d + d - 1) / d + 1 := by
    have harith : T + d - 1 = (T - d + d - 1) + d := by omega
    rw [harith, Nat.add_div_right _ hd]
  rw [hceil, List.range_succ_eq_map, List.map_cons, List.map_map]
  congr 1
  · omega
  · apply List.map_congr_left
    intro i _
    simp only [Function.comp]
    have hsucc : Nat.succ i * d = i * d + d := Nat.succ_mul i d
    rw [hsucc]
    omega

theorem genRequests_tail (c hs : Nat) (hc : 0 < c) :
    ∀ (fuel rem offset : Nat), 0 < rem → rem ≤ fuel → 0 < offset →
      genRequests (offset + rem) c hs fuel offset = some (pacingSchedule c rem) := by
  intro fuel
  induction fuel with
  | zero => intro rem offset h1 h2 _; omega
  | succ f ih =>
    intro rem offset h1 h2 hoff
    have hoff' : ¬ offset = 0 := by omega
    have hbytes : min (offset + rem - offset) (c + if offset = 0 then hs else 0) =
        min rem c := by
      rw [if_neg hoff']
      omega
    by_cases hrc : rem ≤ c
    · have hmin : min rem c = rem := by omega
      have hstop : offset + min (offset + rem - offset)
          (c + if offset = 0 then hs else 0) = offset + rem := by
        rw [hbytes, hmin]
      unfold genRequests
      rw [if_pos hstop, pacingSchedule_of_le c rem h1 hrc]
      have hgoal : min (offset + rem - offset) (c + if offset = 0 then hs else 0) -
          (if offset = 0 then hs else 0) = rem := by
        rw [if_neg hoff']
        omega
      rw [hgoal]
    · have hmin : min rem c = c := by omega
      have hnostop : ¬ (offset + min (offset + rem - offset)
          (c + if offset = 0 then hs else 0) = offset + rem) := by
        rw [hbytes, hmin]
        omega
      unfold genRequests
      rw [if_neg hnostop]
      have hrec : offset + min (offset + rem - offset)
          (c + if offset = 0 then hs else 0) = (offset + c) := by
        rw [hbytes, hmin]
      rw [hrec]
      have hih := ih (rem - c) (offset + c) (by omega) (by omega) (by omega)
      rw [show offset + c + (rem - c) = offset + rem by omega] at hih
      rw [hih, Option.map_some']
      have hhead : min (offset + rem - offset) (c + if offset = 0 then hs else 0) -
          (if offset = 0 then hs else 0) = c := by
        rw [hbytes, hmin, if_neg hoff']
        omega
      rw [hhead, ← pacingSchedule_cons c rem hc (by omega)]

theorem genRequests_run (c hs T : Nat) (hc : 0 < c) (hT : 0 < T) :
    genRequests (hs + T) c hs (hs + T) 0 = some (pacingSchedule c T) := by
  obtain ⟨f, hf⟩ : ∃ f, hs + T = f + 1 := ⟨hs + T - 1, by omega⟩
  rw [show genRequests (hs + T) c hs (hs + T) 0 =
    genRequests (hs + T) c hs (f + 1) 0 by rw [hf]]
  have hbytes : min (hs + T - 0) (c + if (0 : Nat) = 0 then hs else 0) =
      hs + min T c := by
    rw [if_pos rfl]
    omega
  by_cases htc : T ≤ c
  · have hmin : min T c = T := by omega
    have hstop : 0 + min (hs + T - 0) (c + if (0 : Nat) = 0 then hs else 0) = hs + T := by
      rw [hbytes, hmin]
      omega
    unfold genRequests
    rw [if_pos hstop, pacingSchedule_of_le c T hT htc]
    have hgoal : min (hs + T - 0) (c + if (0 : Nat) = 0 then hs else 0) -
        (if (0 : Nat) = 0 then hs else 0) = T := by
      rw [if_pos rfl]
      omega
    rw [hgoal]
  · have hmin : min T c = c := by omega
    have hnostop : ¬ (0 + min (hs + T - 0) (c + if (0 : Nat) = 0 then hs else 0)
        = hs + T) := by
      rw [hbytes, hmin]
      omega
    unfold genRequests
    rw [if_neg hnostop]
    have hrec : 0 + min (hs + T - 0) (c + if (0 : Nat) = 0 then hs else 0) = hs + c := by
      rw [hbytes, hmin]
      omega
    rw [hrec]
    have hih := genRequests_tail c hs hc f (T - c) (hs + c) (by omega) (by omega) (by omega)
    rw [show hs + c + (T - c) = hs + T by omega] at hih
    rw [hih, Option.map_some']
    have hhead : min (hs + T - 0) (c + if (0 : Nat) = 0 then hs else 0) -
        (if (0 : Nat) = 0 then hs else 0) = c := by
      rw [hbytes, hmin, if_pos rfl]
      omega
    rw [hhead, ← pacingSchedule_cons c T hc (by omega)]

theorem pacingSchedule_length (d T : Nat) :
    (pacingSchedule d T).length = (T + d - 1) / d := by
  simp [pacingSchedule]

theorem pacingSchedule_getLast (d T : Nat) (hd : 0 < d) (hT : 0 < T) :
    (pacingSchedule d T).getLast? = some (if T % d = 0 then d else T % d) := by
  induction T using Nat.strong_induction_on with
  | _ T ih =>
    by_cases htc : T ≤ d
    · rw [pacingSchedule_of_le d T hT htc]
      have hval : (if T % d = 0 then d else T % d) = T := by
        rcases Nat.lt_or_ge T d with hlt | hge
        · rw [Nat.mod_eq_of_lt hlt]
          split_ifs <;> omega
        · have hTd : T = d := by omega
          subst hTd
          rw [Nat.mod_self]
          simp
      rw [hval]
      rfl
    · rw [pacingSchedule_cons d T hd (by omega), List.getLast?_cons]
      have hrec := ih (T - d) (by omega) (by omega)
      rw [hrec]
      have hmod : (T - d) % d = T % d := by
        conv_rhs => rw [show T = (T - d) + d by omega]
        rw [Nat.add_mod_right]
      rw [hmod]
      rfl

theorem pacingSchedule_getElem (d T : Nat) (i : Nat)
    (h : i < (pacingSchedule d T).length) : (pacingSchedule d T)[i] = min (T - i * d) d := by
  simp [pacingSchedule]

/-- C8: in non-realtime mode (the pacing sleep does not change what is
written), the write loop of `GenerateRequests`, over a wav file whose
data is a header of `hs` bytes followed by `T` bytes of audio, with a
positive chunk size of `c` bytes, terminates having written exactly
`ceil(T/c)` audio chunks; they follow the slicing schedule in order
(the `i`-th chunk carries `min (T - i*c) c` audio bytes), and the last
chunk carries `T mod c` bytes (`c` when `c` divides `T`). The loop calls
`WritesDone()` exactly once, at the iteration in which `offset` reaches
the end of the data — the iteration producing that last chunk. -/
theorem generateRequests_pacing (c hs T : Nat) (hc : 0 < c) (hT : 0 < T) :
    genRequests (hs + T) c hs (hs + T) 0 = some (pacingSchedule c T) ∧
    (pacingSchedule c T).length = (T + c - 1) / c ∧
    (∀ i, ∀ h : i < (pacingSchedule c T).length,
      (pacingSchedule c T)[i] = min (T - i * c) c) ∧
    (pacingSchedule c T).getLast? = some (if T % c = 0 then c else T % c) :=
  ⟨genRequests_run c hs T hc hT, pacingSchedule_length c T,
    fun i h => pacingSchedule_getElem c T i h, pacingSchedule_getLast c T hc hT⟩

/-- Witness for C8: a 44-byte header with 10 audio bytes in 4-byte
chunks — three chunks `[4, 4, 2]`, the last of 10 mod 4 = 2 bytes. -/
theorem generateRequests_pacing_witness :
    genRequests 54 4 44 54 0 = some (pacingSchedule 4 10) ∧
    (pacingSchedule 4 10).length = 3 ∧
    (pacingSchedule 4 10).getLast? = some 2 := by
  have h := generateRequests_pacing 4 44 10 (by decide) (by decide)
  exact ⟨h.1, h.2.1, h.2.2.2⟩

/-- C9 counterexample: a run with a valid configuration and exactly one
failed call exits with code 0 (statistics withheld), not with code 1 as
the claim states — `main` returns 0 on every path that reaches the call
loop. -/
theorem rivaAsrMain_failed_run_cex :
    rivaAsrMain 2 1 1 true 1 1 = ⟨0, false⟩ ∧ (0 : Nat) ≠ 1 := by
  exact ⟨rfl, by decide⟩

/-- C9 amended: the process exits with code 1 on configuration errors
(missing/extra arguments, `max_alternatives < 1`, channel failure, empty
input set) with no statistics printed, and with code 0 otherwise — also
when calls failed, in which case the latency/throughput statistics are
withheld entirely rather than partially printed (printed exactly when
the failed-request count is zero). -/
theorem rivaAsrMain_exit_codes (argc argcAfterParse : Nat) (maxAlternatives : Int)
    (channelOk : Bool) (numWav numFailed : Nat) :
    ((argc < 2 ∨ 1 < argcAfterParse ∨ maxAlternatives < 1 ∨ channelOk = false ∨
        numWav = 0) →
      rivaAsrMain argc argcAfterParse maxAlternatives channelOk numWav numFailed
        = ⟨1, false⟩) ∧
    (2 ≤ argc → argcAfterParse ≤ 1 → 1 ≤ maxAlternatives → channelOk = true →
      0 < numWav →
      (rivaAsrMain argc argcAfterParse maxAlternatives channelOk numWav
          numFailed).exitCode = 0 ∧
      ((rivaAsrMain argc argcAfterParse maxAlternatives channelOk numWav
          numFailed).statsPrinted = true ↔ numFailed = 0)) := by
  constructor
  · intro hconf
    unfold rivaAsrMain
    rcases hconf with h | h | h | h | h
    · rw [if_pos h]
    · by_cases h1 : argc < 2
      · rw [if_pos h1]
      · rw [if_neg h1, if_pos h]
    · by_cases h1 : argc < 2
      · rw [if_pos h1]
      · by_cases h2 : 1 < argcAfterParse
        · rw [if_neg h1, if_pos h2]
        · rw [if_neg h1, if_neg h2, if_pos h]
    · by_cases h1 : argc < 2
      · rw [if_pos h1]
      · by_cases h2 : 1 < argcAfterParse
        · rw [if_neg h1, if_pos h2]
        · by_cases h3 : maxAlternatives < 1
          · rw [if_neg h1, if_neg h2, if_pos h3]
          · rw [if_neg h1, if_neg h2, if_neg h3, if_pos (by simp [h])]
    · by_cases h1 : argc < 2
      · rw [if_pos h1]
      · by_cases h2 : 1 < argcAfterParse
        · rw [if_neg h1, if_pos h2]
        · by_cases h3 : maxAlternatives < 1
          · rw [if_neg h1, if_neg h2, if_pos h3]
          · by_cases h4 : channelOk = false
            · rw [if_neg h1, if_neg h2, if_neg h3, if_pos (by simp [h4])]
            · rw [if_neg h1, if_neg h2, if_neg h3, if_neg (by simp_all), if_pos h]
  · intro h1 h2 h3 h4 h5
    unfold rivaAsrMain
    rw [if_neg (show ¬ argc < 2 by omega),
      if_neg (show ¬ 1 < argcAfterParse by omega),
      if_neg (show ¬ maxAlternatives < 1 by omega),
      if_neg (show ¬ (!channelOk) = true by simp [h4]),
      if_neg (show ¬ numWav = 0 by omega)]
    by_cases h6 : numFailed = 0
    · rw [if_neg (show ¬ numFailed ≠ 0 by omega)]
      exact ⟨rfl, by simp [h6]⟩
    · rw [if_pos (show numFailed ≠ 0 from h6)]
      exact ⟨rfl, by simp [h6]⟩

/-- Witness for C9 amended: an empty input set exits 1; a clean run of
one file exits 0 with statistics printed. -/
theorem rivaAsrMain_exit_codes_witness :
    rivaAsrMain 2 1 1 true 0 0 = ⟨1, false⟩ ∧
    (rivaAsrMain 2 1 1 true 1 0).exitCode = 0 ∧
    (rivaAsrMain 2 1 1 true 1 0).statsPrinted = true := by
  refine ⟨(rivaAsrMain_exit_codes 2 1 1 true 0 0).1 (by tauto), ?_, ?_⟩
  · exact ((rivaAsrMain_exit_codes 2 1 1 true 1 0).2 (by omega) (by omega) (by omega)
      rfl (by omega)).1
  · exact ((rivaAsrMain_exit_codes 2 1 1 true 1 0).2 (by omega) (by omega) (by omega)
      rfl (by omega)).2.mpr rfl

end Riva
